import Mathlib

/-!
Shallow embedding of the powerd++ CPU frequency governor daemon
(`src/powerd++.cpp`, `sys/sysctl.hpp`, `clas.cpp`).

Conventions:
* Kernel tick counters (`cptime_t`, an unsigned 64-bit type) are `Nat`
  values below `W = 2 ^ 64`; all counter arithmetic is performed
  modulo `W`, mirroring unsigned wraparound.
* Frequencies (`mhz_t`, a signed int) and core identifiers
  (`coreid_t`) are `Int`.
* Fallible C++ code (functions that may `throw`) is embedded in
  `Except`; kernel sysctl writes performed by a tick are collected in
  an explicit write list.
-/

/-- Modulus of the unsigned kernel tick counter type `cptime_t`. -/
def W : Nat := 2 ^ 64

/-- Default (and `minimum` mode) clock rate bound, `constants::FREQ_DEFAULT_MIN`. -/
def FREQ_DEFAULT_MIN : Int := 0

/-- Default (and `maximum` mode) clock rate bound, `constants::FREQ_DEFAULT_MAX`. -/
def FREQ_DEFAULT_MAX : Int := 1000000

/-- Target load of the `adaptive` mode, `constants::ADP` (50% of 1024). -/
def ADP : Nat := 512

/-- Target load of the `hiadaptive` mode, `constants::HADP` (37.5% of 1024). -/
def HADP : Nat := 384

/-- One per-core sample of the kernel tick state counters.
`CPUSTATES = 5` on the target system, with `CP_IDLE = 4`. -/
abbrev CpSlot := Fin 5 → Nat

/-- Unsigned subtraction modulo `W`, the meaning of `a - b` on
`cptime_t` operands. -/
def subW (a b : Nat) : Nat := (a + (W - b % W)) % W

/-- The accumulated window delta `all` of `update_cp_times`:
`cptime_t all = 0; for (i < CPUSTATES) all += new[i] - old[i];`
with every addition wrapping at the unsigned width. -/
def allDelta (new old : CpSlot) : Nat :=
  ((((subW (new 0) (old 0)
    + subW (new 1) (old 1)) % W
    + subW (new 2) (old 2)) % W
    + subW (new 3) (old 3)) % W
    + subW (new 4) (old 4)) % W

/-- The idle delta `idle = new[CP_IDLE] - old[CP_IDLE]` of
`update_cp_times` (`CP_IDLE = 4`). -/
def idleDelta (new old : CpSlot) : Nat := subW (new 4) (old 4)

/-- Per-core load computation of `update_cp_times`:
`g.cores[core].load = all ? (((all - idle) << 10) / all) : 0;`
with the subtraction and shift performed on `cptime_t`. -/
def coreLoad (new old : CpSlot) : Nat :=
  let all := allDelta new old
  let idle := idleDelta new old
  if all = 0 then 0 else (subW all idle * 1024 % W) / all

/-- One per-AC-line-state policy slot of `g.acstates`. -/
structure AcState where
  freq_min : Int
  freq_max : Int
  target_load : Nat
  target_freq : Int
deriving DecidableEq

/-- Per-core management state, struct `Core` of `powerd++.cpp`.
`freq` is the value currently held by the kernel frequency sysctl of
the core (read by `mhz_t const oldfreq = core.freq`). -/
structure CoreSt where
  freq : Int
  controller : Int
  load : Nat
  min : Int
  max : Int
deriving DecidableEq

/-- The desired target frequency of `update_freq`:
adaptive mode (`acstate.target_load` nonzero) computes
`oldfreq * core.load / acstate.target_load`, fixed mode uses
`acstate.target_freq`. -/
def wantFreq (oldfreq : Int) (load : Nat) (ac : AcState) : Int :=
  if ac.target_load ≠ 0 then oldfreq * (load : Int) / (ac.target_load : Int)
  else ac.target_freq

/-- The limit application of `update_freq`:
`max = std::min(core.max, acstate.freq_max);
 min = std::max(core.min, acstate.freq_min);
 newfreq = std::min(std::max(wantfreq, min), max);`. -/
def clampFreq (cmin cmax fmin fmax want : Int) : Int :=
  min (max want (max cmin fmin)) (min cmax fmax)

/-- The frequency chosen for one controller core by `update_freq`. -/
def coreNewFreq (ac : AcState) (core : CoreSt) : Int :=
  clampFreq core.min core.max ac.freq_min ac.freq_max
    (wantFreq core.freq core.load ac)

/-- Write one list element in place (list analogue of `g.cores[i] = v`). -/
def setAt : List α → Nat → α → List α
  | [], _, _ => []
  | _ :: l, 0, b => b :: l
  | a :: l, n + 1, b => a :: setAt l n b

/-- Map over a list with the element index, starting at index `i`. -/
def mapIdxFrom (f : Nat → α → β) : Nat → List α → List β
  | _, [] => []
  | i, a :: l => f i a :: mapIdxFrom f (i + 1) l

/-- The global mutable state `g` of `powerd++.cpp`, restricted to the
fields the sampling and actuation path uses.  `cpTimes k c` is the
per-core counter vector held in ring-buffer slot `k` for core `c`
(the flat `g.cp_times` buffer viewed with its stride). -/
structure GState where
  samples : Nat
  sample : Nat
  cpTimes : Nat → Nat → CpSlot
  cores : List CoreSt

/-- The function `update_cp_times`: store the freshly read kernel
snapshot in slot `g.sample`, recompute every core's load against the
oldest slot `(g.sample + 1) % g.samples`, then advance `g.sample`. -/
def updateCpTimes (s : GState) (snapshot : Nat → CpSlot) : GState :=
  let buf := fun k c => if k = s.sample then snapshot c else s.cpTimes k c
  let oldSlot := (s.sample + 1) % s.samples
  { s with
    cpTimes := buf
    cores := mapIdxFrom
      (fun c core => { core with load := coreLoad (buf s.sample c) (buf oldSlot c) })
      0 s.cores
    sample := oldSlot }

/-- One step of the coalescing loop of `update_load_times` for core
index `i`: a follower folds its load into its controller by maximum. -/
def coalesceStep (cs : List CoreSt) (i : Nat) : List CoreSt :=
  match cs[i]? with
  | none => cs
  | some core =>
    if core.controller = (i : Int) then cs
    else
      match cs[core.controller.toNat]? with
      | none => cs
      | some ctl =>
        if core.controller < 0 then cs
        else setAt cs core.controller.toNat { ctl with load := max ctl.load core.load }

/-- The follower-folding loop of `update_load_times`. -/
def coalesce (cs : List CoreSt) : List CoreSt :=
  (List.range cs.length).foldl coalesceStep cs

/-- The function `update_load_times`: sample, compute loads, coalesce. -/
def updateLoadTimes (s : GState) (snapshot : Nat → CpSlot) : GState :=
  let s1 := updateCpTimes s snapshot
  { s1 with cores := coalesce s1.cores }

/-- The per-controller actuation loop of `update_freq` over cores
`i, i+1, ...`: each controller core reads its old frequency, decides
`coreNewFreq` and writes it back iff it changed.  Returns the updated
cores and the list of `(core index, value)` sysctl writes issued. -/
def actuateFrom (ac : AcState) : Nat → List CoreSt → List CoreSt × List (Nat × Int)
  | _, [] => ([], [])
  | i, core :: rest =>
    let p := actuateFrom ac (i + 1) rest
    if core.controller = (i : Int) then
      let nf := coreNewFreq ac core
      if nf ≠ core.freq then ({ core with freq := nf } :: p.1, (i, nf) :: p.2)
      else (core :: p.1, p.2)
    else (core :: p.1, p.2)

/-- The function `update_freq` for one tick: update loads, then run the
actuation loop under the policy slot `ac` selected by the AC line
state read at the top of the tick. -/
def updateFreq (s : GState) (snapshot : Nat → CpSlot) (ac : AcState) :
    GState × List (Nat × Int) :=
  let s1 := updateLoadTimes s snapshot
  let p := actuateFrom ac 0 s1.cores
  ({ s1 with cores := p.1 }, p.2)

/-- The want value of a controller whose load is zero: `0` in adaptive
mode (the product `oldfreq * 0` vanishes), `target_freq` in fixed mode. -/
def zeroWant (ac : AcState) : Int :=
  if ac.target_load ≠ 0 then 0 else ac.target_freq

/-- Expected writes of an actuation pass in which every load is zero:
exactly the controllers whose clamped zero-load want differs from
their current frequency. -/
def zeroLoadWritesFrom (ac : AcState) : Nat → List CoreSt → List (Nat × Int)
  | _, [] => []
  | i, core :: rest =>
    let tail := zeroLoadWritesFrom ac (i + 1) rest
    if core.controller = (i : Int) then
      let nf := clampFreq core.min core.max ac.freq_min ac.freq_max (zeroWant ac)
      if nf ≠ core.freq then (i, nf) :: tail else tail
    else tail

/-- Exit codes of the daemon (`errors::Exit`), restricted to those the
embedded functions produce. -/
inductive Exit where
  | OK
  | ESYSCTL
  | ENOFREQ
  | EFORBIDDEN
  | ECLARG
  | ELOAD
  | EFREQ
  | EIVAL
  | ESAMPLES
  | EOUTOFRANGE
  | EMODE
deriving DecidableEq

/-- Command line argument units recognised by the `Value` lexer of
`clas.cpp` (enum `Unit`). -/
inductive CliUnit where
  | SCALAR
  | PERCENT
  | SECOND
  | MILLISECOND
  | HZ
  | KHZ
  | MHZ
  | GHZ
  | THZ
  | CELSIUS
  | KELVIN
  | FAHRENHEIT
  | RANKINE
  | UNKNOWN
deriving DecidableEq

/-- Truncating cast of a nonnegative magnitude to an unsigned integral
type (the C++ casts `cptime_t(value)` and `size_t(value)` on the
nonnegative magnitudes reached by the parsers). -/
def truncNat (v : ℚ) : Nat := (Rat.floor v).toNat

/-- Truncating cast of a nonnegative magnitude to `mhz_t`. -/
def truncInt (v : ℚ) : Int := Rat.floor v

/-- The load target parser `clas::load`.  Its input is the lexed
`Value` of the argument string, given as magnitude `v` and unit `u`;
`empty` records the leading null / empty string check.  The double
magnitude is modelled as a rational (the literal `10.24` is taken as
the exact scale `1024 / 100`). -/
def loadParse (empty : Bool) (v : ℚ) (u : CliUnit) : Except Exit Nat :=
  if empty then .error .ELOAD
  else if u = .SCALAR then
    if v > 1 ∨ v < 0 then .error .EOUTOFRANGE
    else
      let x := v * 1024
      .ok (if x < 1 then 1 else truncNat x)
  else if u = .PERCENT then
    if v > 100 ∨ v < 0 then .error .EOUTOFRANGE
    else
      let x := v * (1024 / 100 : ℚ)
      .ok (if x < 1 then 1 else truncNat x)
  else .error .ELOAD

/-- The frequency parser `clas::freq` on the lexed `Value`. -/
def freqParse (empty : Bool) (v : ℚ) (u : CliUnit) : Except Exit Int :=
  if empty then .error .EFREQ
  else
    match u with
    | .HZ => freqRange (v / 1000000)
    | .KHZ => freqRange (v / 1000)
    | .SCALAR => freqRange v
    | .MHZ => freqRange v
    | .GHZ => freqRange (v * 1000)
    | .THZ => freqRange (v * 1000000)
    | _ => .error .EFREQ
where
  /-- Final range check and cast of `clas::freq`. -/
  freqRange (x : ℚ) : Except Exit Int :=
    if x > 1000000 ∨ x < 0 then .error .EOUTOFRANGE else .ok (truncInt x)

/-- The sample count parser `clas::samples` on the lexed `Value`. -/
def samplesParse (empty : Bool) (v : ℚ) (u : CliUnit) : Except Exit Nat :=
  if empty then .error .ESAMPLES
  else if u ≠ .SCALAR then .error .ESAMPLES
  else if v ≠ (truncNat v : ℚ) then .error .EOUTOFRANGE
  else if v < 1 ∨ v > 1000 then .error .EOUTOFRANGE
  else .ok (truncNat v)

/-- The tail of `set_mode` past the predefined keywords: try the load
parser, rethrowing only its out-of-range failure, then the frequency
parser likewise, and finally fail with the mode-not-recognised error.
Before the keyword tests `set_mode` zeroes both targets of the slot;
setting one field afterwards leaves the other zeroed. -/
def setModeTail (empty : Bool) (v : ℚ) (u : CliUnit) (st : AcState) :
    Except Exit AcState :=
  let st0 := { st with target_load := 0, target_freq := 0 }
  match loadParse empty v u with
  | .ok l => .ok { st0 with target_load := l }
  | .error e =>
    if e = .EOUTOFRANGE then .error e
    else
      match freqParse empty v u with
      | .ok f => .ok { st0 with target_freq := f }
      | .error e2 => if e2 = .EOUTOFRANGE then .error e2 else .error .EMODE

/-- Mode-string fall-through policy as the specification words it: try
load first; a load out-of-range failure aborts; a value the load
parser does not recognise falls through to the frequency parser; a
frequency out-of-range failure aborts; a value recognised by neither
parser fails with the mode-not-recognised error. -/
def setModeSpec (empty : Bool) (v : ℚ) (u : CliUnit) (st : AcState) :
    Except Exit AcState :=
  let st0 := { st with target_load := 0, target_freq := 0 }
  match loadParse empty v u, freqParse empty v u with
  | .ok l, _ => .ok { st0 with target_load := l }
  | .error .EOUTOFRANGE, _ => .error .EOUTOFRANGE
  | .error _, .ok f => .ok { st0 with target_freq := f }
  | .error _, .error .EOUTOFRANGE => .error .EOUTOFRANGE
  | .error _, .error _ => .error .EMODE

/-- The function `set_mode` on the lowercased mode string and its
lexed `Value`. -/
def setMode (mode : String) (empty : Bool) (v : ℚ) (u : CliUnit) (st : AcState) :
    Except Exit AcState :=
  let st0 := { st with target_load := 0, target_freq := 0 }
  if mode = "minimum" ∨ mode = "min" then .ok { st0 with target_freq := FREQ_DEFAULT_MIN }
  else if mode = "maximum" ∨ mode = "max" then .ok { st0 with target_freq := FREQ_DEFAULT_MAX }
  else if mode = "adaptive" ∨ mode = "adp" then .ok { st0 with target_load := ADP }
  else if mode = "hiadaptive" ∨ mode = "hadp" then .ok { st0 with target_load := HADP }
  else setModeTail empty v u st

/-- Digit-string value accumulation of `strtol` (base 10). -/
def digitsVal (ds : List Char) : Nat :=
  ds.foldl (fun a c => a * 10 + (c.toNat - 48)) 0

/-- Base-10 `strtol` on a character list: skip leading whitespace,
read an optional sign and a digit run; when no digit is consumed the
end pointer is the original position and the result is `0`. -/
def strtolModel (s : List Char) : Int × List Char :=
  let t := s.dropWhile Char.isWhitespace
  let p : Int × List Char :=
    match t with
    | '-' :: u => (-1, u)
    | '+' :: u => (1, u)
    | _ => (1, t)
  let ds := p.2.takeWhile Char.isDigit
  let rest := p.2.dropWhile Char.isDigit
  if ds = [] then (0, s) else (p.1 * digitsVal ds, rest)

/-- The `freq_levels` walk of `init`: repeatedly read a frequency, a
slash, the second (meaningless) number and a space, folding each
frequency into the running minimum and maximum; any malformed
position stops the walk.  `fuel` bounds the recursion; a full
iteration consumes at least two characters, so the string length is
always a sufficient fuel. -/
def levelsLoop : Nat → List Char → Int → Int → Int × Int
  | 0, _, mn, mx => (mn, mx)
  | _ + 1, [], mn, mx => (mn, mx)
  | fuel + 1, s, mn, mx =>
    let p1 := strtolModel s
    match p1.2 with
    | '/' :: s2 =>
      let mn1 := min mn p1.1
      let mx1 := max mx p1.1
      let p2 := strtolModel s2
      match p2.2 with
      | ' ' :: s4 => levelsLoop fuel s4 mn1 mx1
      | _ => (mn1, mx1)
    | _ => (mn, mx)

/-- Hardware bound discovery of `init` for one controller core:
absent `freq_levels` sysctl (`none`) leaves the defaults untouched;
a present list first overwrites the bounds with the crossed-over
defaults (`core.max = FREQ_DEFAULT_MIN; core.min = FREQ_DEFAULT_MAX;`)
and then folds every parsed frequency in.  Returns `(min, max)`. -/
def coreBounds (levels : Option (List Char)) : Int × Int :=
  match levels with
  | none => (FREQ_DEFAULT_MIN, FREQ_DEFAULT_MAX)
  | some s =>
    levelsLoop s.length s FREQ_DEFAULT_MAX FREQ_DEFAULT_MIN

/-- The controller discovery loop of `init` over cores
`core, core + 1, ...` (`n` of them), threading the most recent
controller id (initially `-1`): a core whose frequency sysctl exists
(`avail`) becomes its own controller, any other core is a follower of
the last controller seen, and a follower with no preceding controller
aborts with `ENOFREQ`.  Returns the controller id per core. -/
def assignFrom (avail : Nat → Bool) : Nat → Nat → Int → Option (List Int)
  | _, 0, _ => some []
  | core, n + 1, controller =>
    if avail core then
      (assignFrom avail (core + 1) n core).map (fun l => (core : Int) :: l)
    else if controller < 0 then none
    else (assignFrom avail (core + 1) n controller).map (fun l => controller :: l)

/-- Controller discovery of `init` for `ncpu` cores. -/
def initControllers (avail : Nat → Bool) (ncpu : Nat) : Option (List Int) :=
  assignFrom avail 0 ncpu (-1)

/-- Most recent controller at or before core `i` (`-1` when none). -/
def lastCtl (avail : Nat → Bool) : Nat → Int
  | 0 => if avail 0 then 0 else -1
  | i + 1 => if avail (i + 1) then (i + 1 : Nat) else lastCtl avail i

/-- Kernel sysctl error kinds (`sys::sc_error` values relevant here). -/
inductive ScErr where
  | notfound
  | truncated
  | denied
  | ioerr
deriving DecidableEq

/-- Modelled from the spec: the kernel `sysctl(3)` read primitive is
not part of `src/`; the specification gives its contract as
"`read(address, buf, &len)` — fills `buf` up to `*len`, updates
`*len` to actual length; fails with `Truncated` if `*len < size`".
`kernelSize` is the current byte length of the kernel value,
`bufLen` the caller's buffer length; on success the result is the
number of bytes filled. -/
def sysctlReadModel (kernelSize bufLen : Nat) : Except ScErr Nat :=
  if bufLen < kernelSize then .error .truncated else .ok kernelSize

/-- The buffer read `Sysctl::get(void *, size_t)`: passes the buffer
size as the length and discards the updated length reported back. -/
def sysctlGetBuf (kernelSize bufLen : Nat) : Except ScErr Nat :=
  sysctlReadModel kernelSize bufLen

/-- The typed read `Sysctl::get(T &)`: `get(&value, sizeof(T))`, with
`tSize = sizeof(T)`. -/
def sysctlGetTyped (kernelSize tSize : Nat) : Except ScErr Nat :=
  sysctlGetBuf kernelSize tSize

/-- Value captured by the constructor of the read-once accessor
`Once`: the kernel value when the read succeeds, the supplied
fallback on any read failure; the constructor itself never throws. -/
def onceGet {T : Type} (dflt : T) (read : Except ScErr T) : T :=
  match read with
  | .ok v => v
  | .error _ => dflt

/-- The read-once accessor `Once`: stores the captured value. -/
structure OnceVal (T : Type) where
  value : T

/-- Construction of a `Once` accessor. -/
def mkOnce {T : Type} (dflt : T) (read : Except ScErr T) : OnceVal T :=
  ⟨onceGet dflt read⟩

/-- Every access (`operator T const &`) returns the stored value. -/
def onceAccess {T : Type} (o : OnceVal T) : T := o.value

/-- True (wraparound-free) summed window delta over all five counter
states, as the specification words it. -/
def trueAll (new old : CpSlot) : Nat :=
  (new 0 - old 0) + (new 1 - old 1) + (new 2 - old 2)
    + (new 3 - old 3) + (new 4 - old 4)

/-- Load formula as the specification states it:
zero when the summed delta is zero, otherwise
`((all - idle) << 10) / all` in unsigned fixed point. -/
def specLoad (new old : CpSlot) : Nat :=
  if trueAll new old = 0 then 0
  else (trueAll new old - (new 4 - old 4)) * 1024 % W / trueAll new old

/-- Example controller core: clocked at 2000 MHz, hardware bounds
`[0, 3000]` MHz. -/
def cexCore : CoreSt := { freq := 2000, controller := 0, load := 0, min := 0, max := 3000 }

/-- Example adaptive policy slot (`adaptive` target, default bounds). -/
def cexAc : AcState := { freq_min := 0, freq_max := 1000000, target_load := 512, target_freq := 0 }

/-- Example global state: two ring-buffer slots, one core. -/
def cexG : GState := { samples := 2, sample := 0, cpTimes := fun _ _ _ => 0, cores := [cexCore] }

/-- Example kernel snapshot, constant over ticks. -/
def cexSnap : Nat → CpSlot := fun _ _ => 7

lemma W_eq : W = 2 ^ 64 := rfl

lemma subW_of_le {a b : Nat} (h : b ≤ a) (ha : a < W) : subW a b = a - b := by
  have ha2 : a < 2 ^ 64 := ha
  show (a + (2 ^ 64 - b % 2 ^ 64)) % 2 ^ 64 = a - b
  omega

lemma subW_self {a : Nat} (ha : a < W) : subW a a = 0 := by
  rw [subW_of_le (Nat.le_refl a) ha, Nat.sub_self]

/-- The claim of spec section 8 for the actuator bounds holds once the
effective clamp window is nonempty. -/
theorem update_freq_bounds_of_window_nonempty (ac : AcState) (core : CoreSt)
    (h : max core.min ac.freq_min ≤ min core.max ac.freq_max) :
    core.min ≤ coreNewFreq ac core ∧ coreNewFreq ac core ≤ core.max ∧
    ac.freq_min ≤ coreNewFreq ac core ∧ coreNewFreq ac core ≤ ac.freq_max := by
  unfold coreNewFreq clampFreq
  omega

/-- With the sole hypothesis `P.freq_min ≤ P.freq_max` the actuator
bound claim fails: a controller with hardware bounds `[0, 10]` MHz
under the operator window `[100, 200]` MHz is driven to 10 MHz, below
the operator minimum. -/
theorem update_freq_bounds_fail_disjoint :
    (100 : Int) ≤ 200 ∧
    coreNewFreq ⟨100, 200, 0, 150⟩ ⟨2000, 0, 0, 0, 10⟩ = 10 ∧
    ¬ (100 : Int) ≤ coreNewFreq ⟨100, 200, 0, 150⟩ ⟨2000, 0, 0, 0, 10⟩ := by
  refine ⟨by decide, rfl, by decide⟩

theorem update_freq_bounds_example :
    max (500 : Int) 600 ≤ min 3000 2500 ∧
    ((500 : Int) ≤ coreNewFreq ⟨600, 2500, 512, 0⟩ ⟨2000, 0, 512, 500, 3000⟩ ∧
     coreNewFreq ⟨600, 2500, 512, 0⟩ ⟨2000, 0, 512, 500, 3000⟩ ≤ 3000 ∧
     (600 : Int) ≤ coreNewFreq ⟨600, 2500, 512, 0⟩ ⟨2000, 0, 512, 500, 3000⟩ ∧
     coreNewFreq ⟨600, 2500, 512, 0⟩ ⟨2000, 0, 512, 500, 3000⟩ ≤ 2500) :=
  ⟨by decide,
   update_freq_bounds_of_window_nonempty ⟨600, 2500, 512, 0⟩ ⟨2000, 0, 512, 500, 3000⟩
     (by decide)⟩

/-- The sample count parser accepts the string `1` and returns 1:
its range check is `[1, 1000]`, not `[2, 1000]`, and no later
configuration step revisits the value. -/
theorem samples_accepts_one : samplesParse false 1 .SCALAR = .ok 1 := by
  rfl

/-- A present but empty `freq_levels` list does not keep the default
hardware bounds: the crossed-over initialisation runs before the
parse loop, leaving `min = 1000000 > max = 0` and violating the
source's own assertion `core.min <= core.max`; an absent list keeps
the defaults. -/
theorem freq_levels_empty_inverts_bounds :
    coreBounds (some []) = (1000000, 0) ∧
    coreBounds none = (0, 1000000) ∧
    ¬ (coreBounds (some [])).1 ≤ (coreBounds (some [])).2 := by
  refine ⟨rfl, rfl, by decide⟩

/-- Width behaviour of the typed read `Sysctl::get(T &)`: a kernel
value larger than `sizeof(T)` fails with `Truncated`; a kernel value
of at most `sizeof(T)` bytes succeeds and fills exactly that many
bytes (a short read when smaller). -/
theorem sysctl_get_width_check (ks ts : Nat) :
    (ts < ks → sysctlGetTyped ks ts = .error .truncated) ∧
    (ks ≤ ts → sysctlGetTyped ks ts = .ok ks) := by
  unfold sysctlGetTyped sysctlGetBuf sysctlReadModel
  constructor
  · intro h
    rw [if_pos h]
  · intro h
    rw [if_neg (by omega)]

theorem sysctl_get_width_check_example :
    4 ≤ 8 ∧ sysctlGetTyped 4 8 = .ok 4 :=
  ⟨by decide, (sysctl_get_width_check 4 8).2 (by decide)⟩

/-- A kernel value smaller than `sizeof(T)` is a size mismatch, yet
the typed read succeeds with a short read of only `kernelSize` bytes
(the updated length is discarded unchecked). -/
theorem sysctl_get_short_read_succeeds :
    sysctlGetTyped 2 4 = .ok 2 ∧ (2 : Nat) ≠ 4 :=
  ⟨rfl, by decide⟩

/-- The read-once accessor: construction captures the kernel value on
success and the supplied default on any read failure, never throwing;
every access returns the captured value unchanged. -/
theorem once_fallback_and_memo {T : Type} (dflt : T) (r : Except ScErr T) :
    (∀ v, r = .ok v → onceAccess (mkOnce dflt r) = v) ∧
    (∀ e, r = .error e → onceAccess (mkOnce dflt r) = dflt) ∧
    onceAccess (mkOnce dflt r) = onceGet dflt r := by
  refine ⟨?_, ?_, rfl⟩
  · intro v h
    subst h
    rfl
  · intro e h
    subst h
    rfl

theorem once_fallback_example :
    ((Except.error .denied : Except ScErr Int) = .error .denied) ∧
    onceAccess (mkOnce (1 : Int) (.error .denied)) = 1 :=
  ⟨rfl, (once_fallback_and_memo (1 : Int) (.error .denied)).2.1 .denied rfl⟩

lemma allDelta_eq (new old : CpSlot) (hm : ∀ i, old i ≤ new i)
    (hw : ∀ i, new i < W) (hs : trueAll new old < W) :
    allDelta new old = trueAll new old := by
  unfold allDelta
  rw [subW_of_le (hm 0) (hw 0), subW_of_le (hm 1) (hw 1), subW_of_le (hm 2) (hw 2),
      subW_of_le (hm 3) (hw 3), subW_of_le (hm 4) (hw 4)]
  unfold trueAll at hs ⊢
  rw [W_eq] at hs ⊢
  omega

lemma idleDelta_le_trueAll (new old : CpSlot) : new 4 - old 4 ≤ trueAll new old := by
  unfold trueAll
  omega

/-- The load estimator: on a window with monotonic counters whose
summed delta does not wrap, the computed load is exactly the
specification formula and is bounded by 1024. -/
theorem core_load_formula_and_bound (new old : CpSlot) (hm : ∀ i, old i ≤ new i)
    (hw : ∀ i, new i < W) (hs : trueAll new old < W) :
    coreLoad new old = specLoad new old ∧ coreLoad new old ≤ 1024 := by
  have hA := allDelta_eq new old hm hw hs
  have hI : idleDelta new old = new 4 - old 4 := subW_of_le (hm 4) (hw 4)
  have hIA : new 4 - old 4 ≤ trueAll new old := idleDelta_le_trueAll new old
  have hsub : subW (trueAll new old) (idleDelta new old)
      = trueAll new old - (new 4 - old 4) := by
    rw [hI]
    exact subW_of_le hIA hs
  have hform : coreLoad new old = specLoad new old := by
    unfold coreLoad specLoad
    simp only [hA, hsub]
  refine ⟨hform, ?_⟩
  rw [hform]
  unfold specLoad
  by_cases h0 : trueAll new old = 0
  · rw [if_pos h0]
    omega
  · rw [if_neg h0]
    set A := trueAll new old with hAdef
    set I := new 4 - old 4 with hIdef
    have hApos : 0 < A := Nat.pos_of_ne_zero h0
    by_cases hx : (A - I) * 1024 < W
    · rw [Nat.mod_eq_of_lt hx]
      calc (A - I) * 1024 / A ≤ A * 1024 / A :=
            Nat.div_le_div_right (Nat.mul_le_mul_right 1024 (Nat.sub_le A I))
        _ = 1024 := Nat.mul_div_cancel_left 1024 hApos
    · have hAI : 2 ^ 54 ≤ A - I := by
        rw [W_eq] at hx
        omega
      have hA54 : 2 ^ 54 ≤ A := by omega
      have hmod : (A - I) * 1024 % W ≤ W - 1 := by
        have := Nat.mod_lt ((A - I) * 1024) (show 0 < W by rw [W_eq]; positivity)
        omega
      calc (A - I) * 1024 % W / A ≤ (W - 1) / A := Nat.div_le_div_right hmod
        _ ≤ (W - 1) / 2 ^ 54 := Nat.div_le_div_left hA54 (by positivity)
        _ ≤ 1024 := by rw [W_eq]; decide

theorem core_load_example :
    (∀ i : Fin 5, (fun _ : Fin 5 => 0) i ≤ (fun j : Fin 5 => (j.val + 1) * 100) i) ∧
    (∀ i : Fin 5, (fun j : Fin 5 => (j.val + 1) * 100) i < W) ∧
    trueAll (fun j : Fin 5 => (j.val + 1) * 100) (fun _ : Fin 5 => 0) < W ∧
    (coreLoad (fun j : Fin 5 => (j.val + 1) * 100) (fun _ : Fin 5 => 0)
       = specLoad (fun j : Fin 5 => (j.val + 1) * 100) (fun _ : Fin 5 => 0) ∧
     coreLoad (fun j : Fin 5 => (j.val + 1) * 100) (fun _ : Fin 5 => 0) ≤ 1024) :=
  ⟨by decide, by decide, by decide,
   core_load_formula_and_bound _ _ (by decide) (by decide) (by decide)⟩

/-- Mode parsing past the predefined keywords follows exactly the
fall-through policy of the specification: load first, out-of-range
aborts from either parser, unrecognised loads fall through to the
frequency parser, and values recognised by neither fail with the
mode-not-recognised error. -/
theorem set_mode_fallthrough_policy (empty : Bool) (v : ℚ) (u : CliUnit) (st : AcState) :
    setModeTail empty v u st = setModeSpec empty v u st := by
  unfold setModeTail setModeSpec
  cases hL : loadParse empty v u with
  | ok l => simp [hL]
  | error e =>
    cases hF : freqParse empty v u with
    | ok f => cases e <;> simp [hL, hF]
    | error e2 => cases e <;> cases e2 <;> simp [hL, hF]

lemma truncNat_ge_one {x : ℚ} (hx : ¬ x < 1) : 1 ≤ truncNat x := by
  have h1 : (1 : ℚ) ≤ x := not_lt.mp hx
  have h2 : (1 : ℤ) ≤ Rat.floor x := Rat.le_floor.mpr (by exact_mod_cast h1)
  unfold truncNat
  omega

lemma clamp_one_ge_one {x : ℚ} {l : Nat}
    (h : (if x < 1 then 1 else truncNat x) = l) : 1 ≤ l := by
  split_ifs at h with hx
  · omega
  · exact h ▸ truncNat_ge_one hx

lemma load_parse_ge_one {empty : Bool} {v : ℚ} {u : CliUnit} {l : Nat}
    (h : loadParse empty v u = .ok l) : 1 ≤ l := by
  unfold loadParse at h
  split_ifs at h
  all_goals
    first
    | exact Except.noConfusion h
    | (simp only [Except.ok.injEq] at h
       exact clamp_one_ge_one h)

/-- The adaptive-mode division is guarded: a policy slot produced by
`set_mode` either has a zero target load — in which case the want
computation takes the fixed branch and performs no division — or a
target load of at least 1, so the divisor of the adaptive branch is
never zero. -/
theorem adaptive_division_nonzero (mode : String) (empty : Bool) (v : ℚ) (u : CliUnit)
    (st st2 : AcState) (h : setMode mode empty v u st = .ok st2) :
    (st2.target_load = 0 → ∀ oldfreq load, wantFreq oldfreq load st2 = st2.target_freq) ∧
    (st2.target_load ≠ 0 → 1 ≤ st2.target_load) := by
  constructor
  · intro h0 oldfreq load
    unfold wantFreq
    simp [h0]
  · intro hne
    unfold setMode at h
    split_ifs at h with k1 k2 k3 k4
    · rw [Except.ok.injEq] at h
      subst h
      simp at hne
    · rw [Except.ok.injEq] at h
      subst h
      simp at hne
    · rw [Except.ok.injEq] at h
      subst h
      norm_num [ADP]
    · rw [Except.ok.injEq] at h
      subst h
      norm_num [HADP]
    · unfold setModeTail at h
      cases hL : loadParse empty v u with
      | ok l =>
        simp only [hL] at h
        rw [Except.ok.injEq] at h
        subst h
        simpa using load_parse_ge_one hL
      | error e =>
        simp only [hL] at h
        split_ifs at h with he
        cases hF : freqParse empty v u with
        | ok f =>
          simp only [hF] at h
          rw [Except.ok.injEq] at h
          subst h
          simp at hne
        | error e2 =>
          simp only [hF] at h
          split_ifs at h

theorem adaptive_division_example :
    setMode "adp" false 0 .SCALAR ⟨0, 0, 0, 0⟩ = .ok ⟨0, 0, ADP, 0⟩ ∧
    1 ≤ (⟨0, 0, ADP, 0⟩ : AcState).target_load :=
  ⟨rfl,
   (adaptive_division_nonzero "adp" false 0 .SCALAR ⟨0, 0, 0, 0⟩ ⟨0, 0, ADP, 0⟩ rfl).2
     (by decide)⟩

lemma lastCtl_le (avail : Nat → Bool) : ∀ i : Nat, lastCtl avail i ≤ (i : Int) := by
  intro i
  induction i with
  | zero =>
    simp only [lastCtl]
    split_ifs <;> omega
  | succ n ih =>
    simp only [lastCtl]
    split_ifs <;> push_cast <;> omega

lemma lastCtl_avail (avail : Nat → Bool) :
    ∀ i : Nat, 0 ≤ lastCtl avail i → avail (lastCtl avail i).toNat = true := by
  intro i
  induction i with
  | zero =>
    intro h
    by_cases ha : avail 0
    · simp [lastCtl, ha]
    · rw [lastCtl, if_neg ha] at h
      omega
  | succ n ih =>
    intro h
    by_cases ha : avail (n + 1)
    · simp [lastCtl, ha]
    · rw [lastCtl, if_neg ha] at h ⊢
      exact ih h

lemma lastCtl_self (avail : Nat → Bool) {j : Nat} (hj : avail j = true) :
    lastCtl avail j = (j : Int) := by
  cases j with
  | zero => simp [lastCtl, hj]
  | succ n => simp [lastCtl, hj]

lemma lastCtl_between (avail : Nat → Bool) :
    ∀ i k : Nat, 0 ≤ lastCtl avail i → (lastCtl avail i).toNat ≤ k → k ≤ i →
      lastCtl avail k = lastCtl avail i := by
  intro i
  induction i with
  | zero =>
    intro k h hk1 hk2
    have : k = 0 := by omega
    subst this
    rfl
  | succ n ih =>
    intro k h hk1 hk2
    by_cases ha : avail (n + 1)
    · have hl : lastCtl avail (n + 1) = ((n + 1 : Nat) : Int) := by
        simp [lastCtl, ha]
      rw [hl] at hk1 ⊢
      have : k = n + 1 := by
        simp only [Int.toNat_natCast] at hk1
        omega
      subst this
      exact lastCtl_self avail ha
    · have hl : lastCtl avail (n + 1) = lastCtl avail n := by
        simp [lastCtl, ha]
      rw [hl] at h hk1 ⊢
      rcases Nat.lt_or_ge k (n + 1) with hk | hk
      · exact ih k h hk1 (by omega)
      · have : k = n + 1 := by omega
        subst this
        simp [lastCtl, ha]

lemma assignFrom_spec (avail : Nat → Bool) :
    ∀ (n c : Nat) (l : List Int),
      assignFrom avail c n (if c = 0 then -1 else lastCtl avail (c - 1)) = some l →
      ∀ j, j < n → l[j]? = some (lastCtl avail (c + j)) ∧ 0 ≤ lastCtl avail (c + j) := by
  intro n
  induction n with
  | zero =>
    intro c l h j hj
    omega
  | succ m ih =>
    intro c l h j hj
    unfold assignFrom at h
    by_cases ha : avail c
    · rw [if_pos ha] at h
      cases hrec : assignFrom avail (c + 1) m (c : Int) with
      | none =>
        rw [hrec] at h
        exact Option.noConfusion h
      | some l2 =>
        rw [hrec] at h
        simp only [Option.map_some', Option.some.injEq] at h
        subst h
        have hc : lastCtl avail c = (c : Int) := lastCtl_self avail ha
        have hrec2 : assignFrom avail (c + 1) m
            (if c + 1 = 0 then -1 else lastCtl avail (c + 1 - 1)) = some l2 := by
          rw [if_neg (by omega), Nat.add_sub_cancel, hc]
          exact hrec
        cases j with
        | zero =>
          refine ⟨?_, ?_⟩
          · simp [Nat.add_zero, hc]
          · rw [Nat.add_zero, hc]
            omega
        | succ j2 =>
          have hj2 := ih (c + 1) l2 hrec2 j2 (by omega)
          refine ⟨?_, ?_⟩
          · rw [List.getElem?_cons_succ, show c + (j2 + 1) = c + 1 + j2 by omega]
            exact hj2.1
          · rw [show c + (j2 + 1) = c + 1 + j2 by omega]
            exact hj2.2
    · rw [if_neg ha] at h
      by_cases hc0 : c = 0
      · subst hc0
        simp at h
      · rw [if_neg hc0] at h
        by_cases hneg : lastCtl avail (c - 1) < 0
        · rw [if_pos hneg] at h
          exact Option.noConfusion h
        · rw [if_neg hneg] at h
          cases hrec : assignFrom avail (c + 1) m (lastCtl avail (c - 1)) with
          | none =>
            rw [hrec] at h
            exact Option.noConfusion h
          | some l2 =>
            rw [hrec] at h
            simp only [Option.map_some', Option.some.injEq] at h
            subst h
            have hc : lastCtl avail c = lastCtl avail (c - 1) := by
              obtain ⟨k, rfl⟩ : ∃ k, c = k + 1 := ⟨c - 1, by omega⟩
              simp [lastCtl, ha, Nat.add_sub_cancel]
            have hrec2 : assignFrom avail (c + 1) m
                (if c + 1 = 0 then -1 else lastCtl avail (c + 1 - 1)) = some l2 := by
              rw [if_neg (by omega), Nat.add_sub_cancel, hc]
              exact hrec
            cases j with
            | zero =>
              refine ⟨?_, ?_⟩
              · simp [Nat.add_zero, hc]
              · rw [Nat.add_zero, hc]
                omega
            | succ j2 =>
              have hj2 := ih (c + 1) l2 hrec2 j2 (by omega)
              refine ⟨?_, ?_⟩
              · rw [List.getElem?_cons_succ, show c + (j2 + 1) = c + 1 + j2 by omega]
                exact hj2.1
              · rw [show c + (j2 + 1) = c + 1 + j2 by omega]
                exact hj2.2

/-- After a successful controller discovery, every core's controller
id is a nonnegative index at most the core's own, the controller is
its own controller, and every core between a controller and one of
its followers belongs to the same group. -/
theorem init_controllers_wellformed (avail : Nat → Bool) (n : Nat) (l : List Int)
    (h : initControllers avail n = some l) :
    ∀ i, i < n → ∃ c : Nat, l[i]? = some (c : Int) ∧ c ≤ i ∧ l[c]? = some (c : Int) ∧
      ∀ k, c ≤ k → k ≤ i → l[k]? = some (c : Int) := by
  have hspec := assignFrom_spec avail n 0 l (by simpa [initControllers] using h)
  intro i hi
  obtain ⟨hgi, hge⟩ := hspec i hi
  rw [Nat.zero_add] at hgi hge
  have hle := lastCtl_le avail i
  refine ⟨(lastCtl avail i).toNat, ?_, by omega, ?_, ?_⟩
  · rw [Int.toNat_of_nonneg hge]
    exact hgi
  · obtain ⟨hg2, _⟩ := hspec (lastCtl avail i).toNat (by omega)
    rw [Nat.zero_add] at hg2
    have hav : avail (lastCtl avail i).toNat = true := lastCtl_avail avail i hge
    rw [hg2, lastCtl_self avail hav]
  · intro k hk1 hk2
    obtain ⟨hg3, _⟩ := hspec k (by omega)
    rw [Nat.zero_add] at hg3
    rw [hg3, lastCtl_between avail i k hge hk1 hk2, Int.toNat_of_nonneg hge]

theorem init_controllers_example :
    initControllers (fun k => decide (k % 2 = 0)) 4 = some [0, 0, 2, 2] ∧
    (∃ c : Nat, ([0, 0, 2, 2] : List Int)[3]? = some (c : Int) ∧ c ≤ 3 ∧
      ([0, 0, 2, 2] : List Int)[c]? = some (c : Int) ∧
      ∀ k, c ≤ k → k ≤ 3 → ([0, 0, 2, 2] : List Int)[k]? = some (c : Int)) :=
  ⟨by decide,
   init_controllers_wellformed (fun k => decide (k % 2 = 0)) 4 [0, 0, 2, 2]
     (by decide) 3 (by decide)⟩

lemma coreLoad_self (a : CpSlot) (ha : ∀ i, a i < W) : coreLoad a a = 0 := by
  unfold coreLoad allDelta idleDelta
  simp [subW_self (ha 0), subW_self (ha 1), subW_self (ha 2),
        subW_self (ha 3), subW_self (ha 4)]

lemma mapIdxFrom_eq_map {α β : Type} (f : Nat → α → β) (g : α → β)
    (hfg : ∀ j a, f j a = g a) : ∀ (i : Nat) (l : List α), mapIdxFrom f i l = l.map g := by
  intro i l
  induction l generalizing i with
  | nil => rfl
  | cons a t ih => simp [mapIdxFrom, hfg, ih]

lemma setAt_self {α : Type} : ∀ {l : List α} {i : Nat} {x : α},
    l[i]? = some x → setAt l i x = l := by
  intro l
  induction l with
  | nil =>
    intro i x h
    simp at h
  | cons a t ih =>
    intro i x h
    cases i with
    | zero =>
      simp at h
      rw [setAt, h]
    | succ n =>
      simp at h
      rw [setAt, ih h]

lemma coalesceStep_zero {cs : List CoreSt} (hz : ∀ c ∈ cs, c.load = 0) (i : Nat) :
    coalesceStep cs i = cs := by
  unfold coalesceStep
  cases hg : cs[i]? with
  | none => simp [hg]
  | some core =>
    simp only [hg]
    split_ifs with hc hneg
    · rfl
    · cases cs[core.controller.toNat]? <;> rfl
    · cases hg2 : cs[core.controller.toNat]? with
      | none => simp [hg2]
      | some ctl =>
        simp only [hg2]
        have h1 : ctl.load = 0 := hz ctl (List.getElem?_mem hg2)
        have h2 : core.load = 0 := hz core (List.getElem?_mem hg)
        have heq : { ctl with load := max ctl.load core.load } = ctl := by
          cases ctl with
          | mk fr co lo mn mx => simp_all
        rw [heq]
        exact setAt_self hg2

lemma coalesce_zero {cs : List CoreSt} (hz : ∀ c ∈ cs, c.load = 0) :
    coalesce cs = cs := by
  unfold coalesce
  generalize List.range cs.length = L
  induction L with
  | nil => rfl
  | cons a t ih => rw [List.foldl_cons, coalesceStep_zero hz, ih]

lemma coreNewFreq_zeroload (ac : AcState) (core : CoreSt) (h : core.load = 0) :
    coreNewFreq ac core
      = clampFreq core.min core.max ac.freq_min ac.freq_max (zeroWant ac) := by
  unfold coreNewFreq wantFreq zeroWant
  by_cases ht : ac.target_load = 0
  · simp [ht]
  · simp [ht, h]

lemma actuateFrom_writes_zeroload (ac : AcState) :
    ∀ (i : Nat) (cs : List CoreSt),
      (actuateFrom ac i (cs.map fun c => { c with load := 0 })).2
        = zeroLoadWritesFrom ac i cs := by
  intro i cs
  induction cs generalizing i with
  | nil => rfl
  | cons core rest ih =>
    have hnf : coreNewFreq ac { core with load := 0 }
        = clampFreq core.min core.max ac.freq_min ac.freq_max (zeroWant ac) :=
      coreNewFreq_zeroload ac { core with load := 0 } rfl
    simp only [List.map_cons, actuateFrom, zeroLoadWritesFrom, hnf, ih]
    split_ifs <;> rfl

lemma actuateFrom_fst_zeroload (ac : AcState) :
    ∀ (i : Nat) (cs : List CoreSt), (∀ c ∈ cs, c.load = 0) →
      ∀ c ∈ (actuateFrom ac i cs).1, c.load = 0 := by
  intro i cs
  induction cs generalizing i with
  | nil =>
    intro _ c hc
    simp [actuateFrom] at hc
  | cons core rest ih =>
    intro h c hc
    have hcore : core.load = 0 := h core (by simp)
    have hrest : ∀ x ∈ rest, x.load = 0 := fun x hx => h x (by simp [hx])
    simp only [actuateFrom] at hc
    split_ifs at hc with h1 h2
    all_goals
      dsimp only at hc
      rw [List.mem_cons] at hc
      rcases hc with h3 | h3
      · rw [h3]
        exact hcore
      · exact ih (i + 1) hrest c h3

lemma updateFreq_fst_cpTimes (s : GState) (f : Nat → CpSlot) (ac : AcState) :
    (updateFreq s f ac).1.cpTimes
      = fun k c => if k = s.sample then f c else s.cpTimes k c := rfl

lemma updateFreq_fst_sample (s : GState) (f : Nat → CpSlot) (ac : AcState) :
    (updateFreq s f ac).1.sample = (s.sample + 1) % s.samples := rfl

lemma updateFreq_fst_samples (s : GState) (f : Nat → CpSlot) (ac : AcState) :
    (updateFreq s f ac).1.samples = s.samples := rfl

lemma updateFreq_fst_cores (s : GState) (f : Nat → CpSlot) (ac : AcState) :
    (updateFreq s f ac).1.cores
      = (actuateFrom ac 0 (coalesce (updateCpTimes s f).cores)).1 := rfl

lemma updateFreq_snd (s : GState) (f : Nat → CpSlot) (ac : AcState) :
    (updateFreq s f ac).2
      = (actuateFrom ac 0 (coalesce (updateCpTimes s f).cores)).2 := rfl

lemma updateFreq_self_snapshot (t : GState) (f : Nat → CpSlot) (ac : AcState)
    (hold : ∀ c, (if (t.sample + 1) % t.samples = t.sample then f c
                  else t.cpTimes ((t.sample + 1) % t.samples) c) = f c)
    (hf : ∀ c i, f c i < W) :
    (∀ core ∈ (updateFreq t f ac).1.cores, core.load = 0) ∧
    (updateFreq t f ac).2 = zeroLoadWritesFrom ac 0 t.cores := by
  have hrepr : (updateCpTimes t f).cores
      = mapIdxFrom (fun c core =>
          { core with load := coreLoad (if t.sample = t.sample then f c else t.cpTimes t.sample c) (if (t.sample + 1) % t.samples = t.sample then f c else t.cpTimes ((t.sample + 1) % t.samples) c) })
          0 t.cores := rfl
  have hcores2 : (updateCpTimes t f).cores
      = t.cores.map (fun core => { core with load := 0 }) := by
    rw [hrepr]
    refine mapIdxFrom_eq_map _ _ ?_ 0 t.cores
    intro j a
    simp [hold j, coreLoad_self (f j) (hf j)]
  have hmapz : ∀ c ∈ t.cores.map (fun core => { core with load := 0 }), c.load = 0 := by
    intro c hc
    rcases List.mem_map.mp hc with ⟨a, _, ha⟩
    rw [← ha]
  constructor
  · rw [updateFreq_fst_cores, hcores2, coalesce_zero hmapz]
    exact actuateFrom_fst_zeroload ac 0 _ hmapz
  · rw [updateFreq_snd, hcores2, coalesce_zero hmapz]
    exact actuateFrom_writes_zeroload ac 0 t.cores

/-- Two consecutive ticks on a two-slot ring receiving the identical
kernel snapshot: the second tick computes load zero on every core,
and its writes are exactly the controllers whose frequency differs
from the clamped zero-load want (0 in adaptive mode, the fixed
target otherwise). -/
theorem identical_ticks_zero_load_writes (s : GState) (f : Nat → CpSlot) (ac : AcState)
    (h2 : s.samples = 2) (hs : s.sample < 2) (hf : ∀ c i, f c i < W) :
    (∀ core ∈ (updateFreq (updateFreq s f ac).1 f ac).1.cores, core.load = 0) ∧
    (updateFreq (updateFreq s f ac).1 f ac).2 =
      zeroLoadWritesFrom ac 0 (updateFreq s f ac).1.cores := by
  apply updateFreq_self_snapshot
  · intro c
    rw [updateFreq_fst_samples, updateFreq_fst_sample, updateFreq_fst_cpTimes, h2]
    have ha : ((s.sample + 1) % 2 + 1) % 2 = s.sample := by omega
    have hb : ¬ s.sample = (s.sample + 1) % 2 := by omega
    simp [ha, hb]
  · exact hf

theorem identical_ticks_example :
    cexG.samples = 2 ∧ cexG.sample < 2 ∧ (∀ c i, cexSnap c i < W) ∧
    ((∀ core ∈ (updateFreq (updateFreq cexG cexSnap cexAc).1 cexSnap cexAc).1.cores,
        core.load = 0) ∧
     (updateFreq (updateFreq cexG cexSnap cexAc).1 cexSnap cexAc).2 =
       zeroLoadWritesFrom cexAc 0 (updateFreq cexG cexSnap cexAc).1.cores) :=
  ⟨rfl, by decide, fun c i => by norm_num [cexSnap, W_eq],
   identical_ticks_zero_load_writes cexG cexSnap cexAc rfl (by decide)
     (fun c i => by norm_num [cexSnap, W_eq])⟩

/-- Under two consecutive identical snapshots the daemon still issues
a frequency write: an adaptive controller at 2000 MHz computes load 0,
wants 0 MHz and is clamped down to its effective minimum, so the
second tick writes `(core 0, 0 MHz)` rather than nothing. -/
theorem identical_ticks_write_issued :
    (updateFreq (updateFreq cexG cexSnap cexAc).1 cexSnap cexAc).2 = [(0, 0)] ∧
    [((0 : Nat), (0 : Int))] ≠ ([] : List (Nat × Int)) := by
  refine ⟨by decide, by decide⟩
